import Mathlib

/-!
Verification of the fixed-point AMM math library and the LP-strategy state
machine of marginal-simulations-2024-02.

The Python sources are embedded shallowly:

* Python big integers become `ℤ`; `a // b` (floor division, raising
  `ZeroDivisionError` on `b = 0`) becomes `pyFloorDiv : ℤ → ℤ → Option ℤ`.
* `int(x)` on a Python float truncates toward zero: `pyTrunc : ℚ → ℤ`.
* `math.sqrt` on an int first rounds the int to the nearest IEEE-754 double
  (round half to even, `OverflowError` past the double range) and then takes
  the correctly rounded double square root; `int(math.sqrt n)` is modelled
  exactly by `pyIntSqrtFloat` below, built from `roundToDouble` and
  `floorDoubleSqrt`.
* Functions that can raise return `Option`; `none` models an uncaught
  exception.
* The double products in `calculate_position_liquidity_deltas` are embedded
  exactly for the C2 analysis: `fround` below is the correctly rounded
  IEEE-754 double operation over exact rationals.  Where a claim's property is
  insensitive to double rounding (C6, C7, the funding-rate quotient, the
  intermediates guarded by C9's zero test), float arithmetic is idealized over
  `ℚ`, as noted at each definition.
-/

namespace MarginalSim

/-- Python integer floor division `a // b`; `none` models `ZeroDivisionError`. -/
def pyFloorDiv (a b : ℤ) : Option ℤ :=
  if b = 0 then none else some (Int.fdiv a b)

/-- Python `int()` applied to an exact rational value: truncation toward zero. -/
def pyTrunc (q : ℚ) : ℤ :=
  if q < 0 then -⌊-q⌋ else ⌊q⌋

/-- Fuel-driven exact integer square root (digit-pair recursion); the fuel is
only there to make the recursion structural, `isqrtFuel n n` is exact for all
`n` (see `isqrt_eq_sqrt`). -/
def isqrtFuel : ℕ → ℕ → ℕ
  | 0, _ => 0
  | f + 1, n =>
    if n < 2 then n
    else
      let r := 2 * isqrtFuel f (n / 4)
      if (r + 1) * (r + 1) ≤ n then r + 1 else r

/-- Exact integer square root, kernel-reducible on literals. -/
def isqrt (n : ℕ) : ℕ := isqrtFuel n n

theorem isqrtFuel_correct : ∀ (f n : ℕ), n < 4 ^ f →
    isqrtFuel f n * isqrtFuel f n ≤ n ∧ n < (isqrtFuel f n + 1) * (isqrtFuel f n + 1) := by
  intro f
  induction f with
  | zero =>
    intro n hn
    norm_num at hn
    have h0 : n = 0 := by omega
    subst h0
    simp [isqrtFuel]
  | succ f ih =>
    intro n hn
    by_cases h2 : n < 2
    · simp only [isqrtFuel, if_pos h2]
      interval_cases n <;> simp
    · have hrec : n / 4 < 4 ^ f := by
        have : n < 4 ^ (f + 1) := hn
        rw [pow_succ] at this
        omega
      obtain ⟨h1, h2'⟩ := ih (n / 4) hrec
      set q := isqrtFuel f (n / 4) with hq
      have hlow : (2 * q) * (2 * q) ≤ n := by
        have : 4 * (q * q) ≤ 4 * (n / 4) := by omega
        have h4 : 4 * (n / 4) ≤ n := Nat.mul_div_le n 4
        nlinarith
      have hhigh : n < (2 * q + 2) * (2 * q + 2) := by
        have : n < 4 * (n / 4) + 4 := by omega
        nlinarith
      simp only [isqrtFuel, if_neg h2, ← hq]
      by_cases hc : (2 * q + 1) * (2 * q + 1) ≤ n
      · simp only [if_pos hc]
        constructor
        · exact hc
        · have : 2 * q + 1 + 1 = 2 * q + 2 := by ring
          rw [this]; exact hhigh
      · simp only [if_neg hc]
        exact ⟨hlow, by omega⟩

theorem isqrt_eq_sqrt (n : ℕ) : isqrt n = Nat.sqrt n := by
  have hfuel : n < 4 ^ n := by
    calc n < 2 ^ n := Nat.lt_two_pow n
    _ ≤ 4 ^ n := Nat.pow_le_pow_left (by norm_num) n
  obtain ⟨h1, h2⟩ := isqrtFuel_correct n n hfuel
  exact Nat.eq_sqrt.mpr ⟨h1, h2⟩

/-- Fuel-driven bit length; `bitlen n` is the number of binary digits of `n`
(`0` for `n = 0`), kernel-reducible on literals. -/
def bitsFuel : ℕ → ℕ → ℕ
  | 0, _ => 0
  | f + 1, n => if n = 0 then 0 else bitsFuel f (n / 2) + 1

/-- Number of binary digits of `n`. -/
def bitlen (n : ℕ) : ℕ := bitsFuel n n

theorem bitsFuel_le : ∀ (f n : ℕ) {j : ℕ}, n < 2 ^ j → bitsFuel f n ≤ j := by
  intro f
  induction f with
  | zero => intro n j _; exact Nat.zero_le j
  | succ f ih =>
    intro n j hn
    by_cases h0 : n = 0
    · simp [bitsFuel, h0]
    · simp only [bitsFuel, if_neg h0]
      have hj : 1 ≤ j := by
        rcases Nat.eq_zero_or_pos j with h | h
        · exfalso; rw [h] at hn; simp at hn; omega
        · exact h
      have h2 : 2 ^ (j - 1) * 2 = 2 ^ j := by
        rw [← pow_succ]; congr 1; omega
      have hdiv : n / 2 < 2 ^ (j - 1) := by omega
      have := ih (n / 2) hdiv
      omega

/-- Value of a nonnegative integer after Python's int-to-double conversion:
round to the nearest 53-bit-significand value, ties to even. -/
def roundToDouble (n : ℕ) : ℕ :=
  if n < 2 ^ 53 then n
  else
    let k := bitlen n - 53
    let q := n / 2 ^ k
    let r := n % 2 ^ k
    let h := 2 ^ (k - 1)
    let q' := if h < r ∨ (r = h ∧ q % 2 = 1) then q + 1 else q
    q' * 2 ^ k

/-- Floor of the correctly rounded IEEE-754 double square root of the exact
double value `d`.  Writing `s = ⌊√d⌋` and `E = bitlen s`, the doubles around
`√d ∈ [2^(E-1), 2^E]` form the grid `k·2^(E-53)` with `k` a 53-bit
significand; the function selects the grid point nearest to `√d`
(ties to even significand) and floors it. -/
def floorDoubleSqrt (d : ℕ) : ℕ :=
  if d = 0 then 0
  else
    let s := isqrt d
    let E := bitlen s
    let k0 := if E ≤ 53 then isqrt (d * 4 ^ (53 - E)) else isqrt d / 2 ^ (E - 53)
    let c := 2 * k0 + 1
    let roundup :=
      if E ≤ 54 then
        c * c < d * 2 ^ (108 - 2 * E) ∨ (c * c = d * 2 ^ (108 - 2 * E) ∧ k0 % 2 = 1)
      else
        c * c * 2 ^ (2 * E - 108) < d ∨ (c * c * 2 ^ (2 * E - 108) = d ∧ k0 % 2 = 1)
    let k := if roundup then k0 + 1 else k0
    if 53 ≤ E then k * 2 ^ (E - 53) else k / 2 ^ (53 - E)

/-- Model of Python `int(math.sqrt(n))` for a nonnegative int `n`: the int is
rounded to the nearest double (`OverflowError`, i.e. `none`, past the finite
double range), the double square root is correctly rounded, and `int`
truncates.  Exact integer square roots are recovered only when no rounding
occurs; see the C4 analysis. -/
def pyIntSqrtFloat (n : ℕ) : Option ℕ :=
  let d := roundToDouble n
  if d < 2 ^ 1024 then some (floorDoubleSqrt d) else none

/-- Constant `MAINTENANCE_UNIT`.  Modelled from the spec: `constants.py` is not
among the provided source files; the spec describes `maintenance` as a
"minimum maintenance margin ratio, integer parts-per-million-like unit", so
the unit is `10^6`. -/
def MAINTENANCE_UNIT : ℤ := 1000000

/-- Constant `FEE_UNIT`.  Modelled from the spec: `constants.py` is not among
the provided source files; fees are in the same parts-per-million style unit
as `maintenance`. -/
def FEE_UNIT : ℤ := 1000000

/-- Embeds `utils.get_mrglv1_amounts_for_liquidity`:
`amount0 = (liquidity << 96) // sqrt_price_x96`,
`amount1 = (liquidity * sqrt_price_x96) // (1 << 96)`. -/
def get_mrglv1_amounts_for_liquidity (sqrt_price_x96 liquidity : ℤ) : Option (ℤ × ℤ) := do
  let amount0 ← pyFloorDiv (liquidity * 2 ^ 96) sqrt_price_x96
  let amount1 ← pyFloorDiv (liquidity * sqrt_price_x96) (2 ^ 96)
  return (amount0, amount1)

/-- Embeds `utils.get_mrglv1_sqrt_price_x96_next_open`.  The source computes
`root = int(sqrt(under))` with Python's float `math.sqrt`, embedded exactly by
`pyIntSqrtFloat`; `none` models `ZeroDivisionError` (zero divisor),
`ValueError` (negative radicand) or `OverflowError` (radicand past the double
range). -/
def get_mrglv1_sqrt_price_x96_next_open (liquidity sqrt_price_x96 liquidity_delta : ℤ)
    (zero_for_one : Bool) (maintenance : ℤ) : Option ℤ := do
  let prod ← pyFloorDiv (liquidity_delta * (liquidity - liquidity_delta) * MAINTENANCE_UNIT)
      (MAINTENANCE_UNIT + maintenance)
  let under := liquidity ^ 2 - 4 * prod
  if under < 0 then none
  else do
    let root ← pyIntSqrtFloat under.toNat
    if zero_for_one = false then
      pyFloorDiv (sqrt_price_x96 * (liquidity + (root : ℤ))) (2 * (liquidity - liquidity_delta))
    else
      pyFloorDiv (sqrt_price_x96 * 2 * (liquidity - liquidity_delta)) (liquidity + (root : ℤ))

/-- Variant of the next-sqrt-price computation following the spec's words: it
takes "an integer square root of the quantity `liquidity² − 4·prod`", i.e. an
EXACT integer square root (`isqrt`, proved equal to `Nat.sqrt` in
`isqrt_eq_sqrt`), with no float rounding anywhere.  Used only to compare
against the source model above. -/
def get_mrglv1_sqrt_price_x96_next_open_exact (liquidity sqrt_price_x96 liquidity_delta : ℤ)
    (zero_for_one : Bool) (maintenance : ℤ) : Option ℤ := do
  let prod ← pyFloorDiv (liquidity_delta * (liquidity - liquidity_delta) * MAINTENANCE_UNIT)
      (MAINTENANCE_UNIT + maintenance)
  let under := liquidity ^ 2 - 4 * prod
  if under < 0 then none
  else do
    let root := isqrt under.toNat
    if zero_for_one = false then
      pyFloorDiv (sqrt_price_x96 * (liquidity + (root : ℤ))) (2 * (liquidity - liquidity_delta))
    else
      pyFloorDiv (sqrt_price_x96 * 2 * (liquidity - liquidity_delta)) (liquidity + (root : ℤ))

/-- Embeds `utils.get_mrglv1_insurances`. -/
def get_mrglv1_insurances (liquidity sqrt_price_x96 sqrt_price_x96_next liquidity_delta : ℤ)
    (zero_for_one : Bool) : Option (ℤ × ℤ) := do
  let prod ←
    if zero_for_one = false then
      pyFloorDiv ((liquidity - liquidity_delta) * sqrt_price_x96_next) sqrt_price_x96
    else
      pyFloorDiv ((liquidity - liquidity_delta) * sqrt_price_x96) sqrt_price_x96_next
  let insurance0 ← pyFloorDiv ((liquidity - prod) * 2 ^ 96) sqrt_price_x96
  let insurance1 ← pyFloorDiv ((liquidity - prod) * sqrt_price_x96) (2 ^ 96)
  return (insurance0, insurance1)

/-- Embeds `utils.get_mrglv1_debts`. -/
def get_mrglv1_debts (sqrt_price_x96_next liquidity_delta insurance0 insurance1 : ℤ) :
    Option (ℤ × ℤ) := do
  let q0 ← pyFloorDiv (liquidity_delta * 2 ^ 96) sqrt_price_x96_next
  let q1 ← pyFloorDiv (liquidity_delta * sqrt_price_x96_next) (2 ^ 96)
  return (q0 - insurance0, q1 - insurance1)

/-- Embeds `utils.get_mrglv1_size_from_liquidity_delta`: composes the next
sqrt price, the insurances and the debts into the position size. -/
def get_mrglv1_size_from_liquidity_delta (liquidity sqrt_price_x96 liquidity_delta : ℤ)
    (zero_for_one : Bool) (maintenance : ℤ) : Option ℤ := do
  let sqrt_price_x96_next ← get_mrglv1_sqrt_price_x96_next_open liquidity sqrt_price_x96
      liquidity_delta zero_for_one maintenance
  let ins ← get_mrglv1_insurances liquidity sqrt_price_x96 sqrt_price_x96_next liquidity_delta
      zero_for_one
  let debts ← get_mrglv1_debts sqrt_price_x96_next liquidity_delta ins.1 ins.2
  if zero_for_one then
    pyFloorDiv (debts.2 * 2 ^ 192) (sqrt_price_x96_next * sqrt_price_x96)
  else
    pyFloorDiv (debts.1 * (sqrt_price_x96_next * sqrt_price_x96)) (2 ^ 192)

/-- Record returned by the mocked position manager's `positions(tokenId)`
query in `runners/lp.py`. -/
structure PositionRec where
  positionId : ℤ
  zeroForOne : Bool
  size : ℤ
  margin : ℤ
  debt : ℤ
  safe : Bool

/-- Record returned by the mocked pool's `positions(key)` query.  The source
keys pool positions by `get_mrglv1_position_key(manager.address, positionId)`
(a keccak hash); the embedding keys them by `positionId` directly, which is
faithful up to injectivity of the hash. -/
structure PoolPositionRec where
  zeroForOne : Bool
  size : ℤ
  margin : ℤ
  debt0 : ℤ
  debt1 : ℤ
  insurance0 : ℤ
  insurance1 : ℤ
  liquidityLocked : ℤ

/-- Mutable fields of `MarginalV1LPRunner` read or written by the per-block
update's position-resolution and swap-simulation steps. -/
structure RunnerState where
  token_ids : Fin 2 → ℤ
  blocks_settle : Fin 2 → ℤ
  positions_liquidated_cumulative : Fin 2 → ℤ
  positions_settled_cumulative : Fin 2 → ℤ
  sizes_liquidated_cumulative : Fin 2 → ℤ
  sizes_settled_cumulative : Fin 2 → ℤ
  net_liquidity_liquidated_cumulative : Fin 2 → ℤ
  net_liquidity_settled_cumulative : Fin 2 → ℤ
  net_liquidity_swap_fees_cumulative : ℤ
  last_univ3_fee_growth_global_x128 : Fin 2 → ℤ

/-- Responses of the external mock contracts consumed by the
liquidate-or-settle loop of `MarginalV1LPRunner.update_strategy`:
the manager's and pool's position queries, and the pool liquidity read
before and after resolving each slot. -/
structure ResolveEnv where
  manager_positions : ℤ → PositionRec
  pool_positions : ℤ → PoolPositionRec
  liquidity_before : Fin 2 → ℤ
  liquidity_after : Fin 2 → ℤ

/-- Embeds one iteration (slot `i`) of the liquidate-or-settle loop of
`MarginalV1LPRunner.update_strategy` (runners/lp.py lines 553-616): skip an
empty slot; liquidate an unsafe position; else settle it once
`number >= self._blocks_settle[i]`; else hold. -/
def resolve_slot (env : ResolveEnv) (number : ℤ) (st : RunnerState) (i : Fin 2) : RunnerState :=
  let token_id := st.token_ids i
  if token_id = -1 then st
  else
    let position := env.manager_positions token_id
    let pposition := env.pool_positions position.positionId
    if position.safe = false then
      let liquidity_returned := env.liquidity_after i - env.liquidity_before i
      let net_liquidity := liquidity_returned - pposition.liquidityLocked
      { st with
        token_ids := Function.update st.token_ids i (-1)
        positions_liquidated_cumulative :=
          Function.update st.positions_liquidated_cumulative i
            (st.positions_liquidated_cumulative i + 1)
        sizes_liquidated_cumulative :=
          Function.update st.sizes_liquidated_cumulative i
            (st.sizes_liquidated_cumulative i + position.size)
        net_liquidity_liquidated_cumulative :=
          Function.update st.net_liquidity_liquidated_cumulative i
            (st.net_liquidity_liquidated_cumulative i + net_liquidity) }
    else if st.blocks_settle i ≤ number then
      let liquidity_returned := env.liquidity_after i - env.liquidity_before i
      let net_liquidity := liquidity_returned - pposition.liquidityLocked
      { st with
        token_ids := Function.update st.token_ids i (-1)
        positions_settled_cumulative :=
          Function.update st.positions_settled_cumulative i
            (st.positions_settled_cumulative i + 1)
        sizes_settled_cumulative :=
          Function.update st.sizes_settled_cumulative i
            (st.sizes_settled_cumulative i + position.size)
        net_liquidity_settled_cumulative :=
          Function.update st.net_liquidity_settled_cumulative i
            (st.net_liquidity_settled_cumulative i + net_liquidity) }
    else st

/-- Embeds the whole liquidate-or-settle loop: slots 0 then 1, as the source
iterates over `self._token_ids.copy()` (each iteration only touches its own
slot, so the fold is the loop). -/
def resolve_positions (env : ResolveEnv) (number : ℤ) (st : RunnerState) : RunnerState :=
  resolve_slot env number (resolve_slot env number st 0) 1

/-- Real-arithmetic idealization of
`MarginalV1LPRunner.calculate_position_liquidity_deltas`:
`int((total_liquidity * utilization * (1 ± skew)) // 2)` with
`total_liquidity = pool.liquidity + pool.liquidityLocked`, with the float
products replaced by exact rational products (so `// 2` is the rational floor
and the outer `int` the identity).  This matches the program only while every
intermediate double value is exact; `calculate_position_liquidity_deltas_float`
below is the faithful double-arithmetic embedding, which deviates from this
closed form once `total_liquidity` reaches `2^53` (see the C2 analysis).  The
idealization is used only for C6 and C7, whose properties are insensitive to
the double rounding. -/
def calculate_position_liquidity_deltas (liquidity liquidity_locked : ℤ)
    (utilization skew : ℚ) : ℤ × ℤ :=
  let total_liquidity : ℚ := (liquidity : ℚ) + (liquidity_locked : ℚ)
  (⌊total_liquidity * utilization * (1 + skew) / 2⌋,
   ⌊total_liquidity * utilization * (1 - skew) / 2⌋)

/-- Per-slot values computed by `MarginalV1LPRunner.get_positions_values`
(the source fills five parallel two-element lists; the embedding packages the
same five numbers per slot). -/
structure SlotValues where
  size : ℤ
  margin : ℤ
  debt : ℤ
  debt_without_funding : ℤ
  funding_rate : ℚ

/-- Embeds the body of the loop of `MarginalV1LPRunner.get_positions_values`
for one slot: the manager is queried with whatever token id the slot holds
(`-1` included), and the funding rate divides by the pool-side debt with no
zero guard; `none` models the `ZeroDivisionError`.  Python divides floats;
the value is idealized as the exact rational. -/
def positions_values_slot (mgr : ℤ → PositionRec) (pool : ℤ → PoolPositionRec)
    (token_id : ℤ) : Option SlotValues :=
  let position := mgr token_id
  let pposition := pool position.positionId
  let dwf := if position.zeroForOne then pposition.debt0 else pposition.debt1
  if dwf = 0 then none
  else some ⟨position.size, position.margin, position.debt, dwf,
    (position.debt : ℚ) / (dwf : ℚ) - 1⟩

/-- Embeds `MarginalV1LPRunner.get_positions_values`: the loop runs over both
slots unconditionally. -/
def get_positions_values (mgr : ℤ → PositionRec) (pool : ℤ → PoolPositionRec)
    (token_ids : Fin 2 → ℤ) : Option (SlotValues × SlotValues) := do
  let v0 ← positions_values_slot mgr pool (token_ids 0)
  let v1 ← positions_values_slot mgr pool (token_ids 1)
  return (v0, v1)

/-- Embeds the body of the loop of
`MarginalV1LPRunner.get_positions_amounts_locked` for one slot, again queried
with whatever token id the slot holds. -/
def positions_amounts_locked_slot (mgr : ℤ → PositionRec) (pool : ℤ → PoolPositionRec)
    (token_id : ℤ) : ℤ × ℤ :=
  let position := mgr token_id
  let pposition := pool position.positionId
  if pposition.zeroForOne = false then
    (pposition.size + pposition.margin + pposition.debt0 + pposition.insurance0,
     pposition.insurance1)
  else
    (pposition.insurance0,
     pposition.size + pposition.margin + pposition.debt1 + pposition.insurance1)

/-- Embeds `MarginalV1LPRunner.get_positions_amounts_locked`; slot `i` of the
result holds `(amounts0_locked[i], amounts1_locked[i])`. -/
def get_positions_amounts_locked (mgr : ℤ → PositionRec) (pool : ℤ → PoolPositionRec)
    (token_ids : Fin 2 → ℤ) : Fin 2 → ℤ × ℤ :=
  fun i => positions_amounts_locked_slot mgr pool (token_ids i)

/-- Fields of the per-block reference state `Mapping` read by
`MarginalV1LPRunner.simulate_swaps`. -/
structure RefState where
  sqrtPriceX96 : ℤ
  liquidity : ℤ
  fee_growth_global0_x128 : ℤ
  fee_growth_global1_x128 : ℤ

/-- Responses of the mocked Marginal v1 pool and router consumed by
`simulate_swaps`: the pool state at entry (`liquidity`, `fee`), the token0
output amount decoded from the first swap's receipt, and the pool state after
the two swaps. -/
structure SwapsEnv where
  liquidity : ℤ
  fee : ℤ
  amount0_out : ℤ
  liquidity_after : ℤ
  sqrt_price_x96_after : ℤ

/-- Embeds the computation in `MarginalV1LPRunner.simulate_swaps`
(runners/lp.py lines 250-276) that produces the desired swap input
`amount1_in`; all of it only reads state.  Python evaluates `price` and
`net_univ3_fee_volume1` in float, idealized here over `ℚ`; `none` models the
`ZeroDivisionError` when the reference liquidity or pool fee is zero. -/
def simulate_swaps_amount1_in (st : RunnerState) (state : RefState) (env : SwapsEnv) :
    Option ℤ := do
  let net0 := state.fee_growth_global0_x128 - st.last_univ3_fee_growth_global_x128 0
  let net1 := state.fee_growth_global1_x128 - st.last_univ3_fee_growth_global_x128 1
  let vol0 ← pyFloorDiv (net0 * state.liquidity) (2 ^ 128)
  let vol1 ← pyFloorDiv (net1 * state.liquidity) (2 ^ 128)
  let price : ℚ := (state.sqrtPriceX96 : ℚ) ^ 2 / 2 ^ 192
  let net_univ3_fee_volume1 := pyTrunc ((price * (vol0 : ℚ) + (vol1 : ℚ)) / 2)
  let net_mrglv1_fee_volume1 ← pyFloorDiv (net_univ3_fee_volume1 * env.liquidity) state.liquidity
  pyFloorDiv (net_mrglv1_fee_volume1 * FEE_UNIT) env.fee

/-- Embeds `MarginalV1LPRunner.simulate_swaps`.  The second component of the
result lists the input amounts of the router swaps actually executed (empty
when the function returns at the `amount1_in == 0` guard, before any state
change).  When swaps do execute, the runner accumulates the pool liquidity
gained into `net_liquidity_swap_fees_cumulative` and then recomputes the fee
amounts (which can itself raise, modelled by the final bind). -/
def simulate_swaps (st : RunnerState) (state : RefState) (env : SwapsEnv) :
    Option (RunnerState × List ℤ) := do
  let amount1_in ← simulate_swaps_amount1_in st state env
  if amount1_in = 0 then
    return (st, [])
  else
    let liquidity_delta_fees := env.liquidity_after - env.liquidity
    let st' := { st with net_liquidity_swap_fees_cumulative :=
        st.net_liquidity_swap_fees_cumulative + liquidity_delta_fees }
    let _fees ← get_mrglv1_amounts_for_liquidity env.sqrt_price_x96_after liquidity_delta_fees
    return (st', [amount1_in, env.amount0_out])

/-! Helper lemmas shared by several claims. -/

theorem fdiv_eq_rat_floor (a b : ℤ) (hb : 0 < b) :
    Int.fdiv a b = ⌊(a : ℚ) / (b : ℚ)⌋ := by
  rw [Int.fdiv_eq_ediv _ hb.le]
  rw [← Int.toNat_of_nonneg hb.le]
  rw [show (((b.toNat : ℤ) : ℚ)) = ((b.toNat : ℕ) : ℚ) by push_cast; ring]
  exact (Rat.floor_intCast_div_natCast a b.toNat).symm

theorem pyFloorDiv_pos (a b : ℤ) (hb : 0 < b) :
    pyFloorDiv a b = some ⌊(a : ℚ) / (b : ℚ)⌋ := by
  rw [pyFloorDiv, if_neg hb.ne', fdiv_eq_rat_floor a b hb]

/-! Claims C2, C5, C6, C7 about the closed-form liquidity deltas and
amounts-for-liquidity. -/

/-! Claim C2: the closed-form liquidity deltas versus the source's
double-precision arithmetic. -/

/-- Correctly rounded IEEE-754 double value (round to nearest, ties to even)
of an exact rational, as an exact rational; `none` models overflow to
infinity (which the runner's final `int(...)` turns into an `OverflowError`).
For `|q| ∈ [2^e, 2^(e+1))` with `e ≥ -1022` the representable doubles form
the grid of multiples of `2^(e-52)` (53-bit significands); below `2^(-1022)`
the subnormal grid `2^(-1074)` applies.  The function picks the grid point
nearest to `|q|`, breaking ties toward an even significand, and restores the
sign. -/
def fround (q : ℚ) : Option ℚ :=
  if q = 0 then some 0
  else
    let e := Int.log 2 |q|
    let g : ℚ := if -1022 ≤ e then (2 : ℚ) ^ (e - 52) else (2 : ℚ) ^ (-1074 : ℤ)
    let k0 : ℤ := ⌊|q| / g⌋
    let r : ℚ := |q| / g - (k0 : ℚ)
    let k : ℤ := if 1 / 2 < r ∨ (r = 1 / 2 ∧ k0 % 2 = 1) then k0 + 1 else k0
    let v : ℚ := (k : ℚ) * g
    if v < 2 ^ 1024 then some (if 0 < q then v else -v) else none

/-- IEEE-754 double multiplication of exact double values: the exact product,
correctly rounded. -/
def fmul (x y : ℚ) : Option ℚ := fround (x * y)

/-- IEEE-754 double addition of exact double values. -/
def fadd (x y : ℚ) : Option ℚ := fround (x + y)

/-- IEEE-754 double subtraction of exact double values. -/
def fsub (x y : ℚ) : Option ℚ := fround (x - y)

/-- Value of a Python int converted to a double (`PyLong_AsDouble`, as in
`int * float`): round half to even via `roundToDouble`, with `OverflowError`
(`none`) when the rounded value leaves the finite double range. -/
def intToDouble (n : ℤ) : Option ℚ :=
  if n = 0 then some 0
  else if 0 < n then
    let v := roundToDouble n.toNat
    if v < 2 ^ 1024 then some ((v : ℕ) : ℚ) else none
  else
    let v := roundToDouble (-n).toNat
    if v < 2 ^ 1024 then some (-((v : ℕ) : ℚ)) else none

/-- Embeds `MarginalV1LPRunner.calculate_position_liquidity_deltas` with the
source's IEEE-754 double arithmetic explicit:
`int((total_liquidity * utilization * (1 ± skew)) // 2)` converts the int
`total_liquidity` to a double, multiplies by the double `utilization`, then
by the double `1 ± skew`, each conversion, addition and multiplication
correctly rounded; the final `// 2` halves a double exactly and floors, and
`int(...)` of that integral double is exact.  The parameters stand for the
exact values of the configured doubles.  The source evaluates the shared
subproducts independently for the two deltas; the shared binds below denote
the same deterministic values. -/
def calculate_position_liquidity_deltas_float (liquidity liquidity_locked : ℤ)
    (utilization skew : ℚ) : Option (ℤ × ℤ) := do
  let total ← intToDouble (liquidity + liquidity_locked)
  let x ← fmul total utilization
  let f01 ← fadd 1 skew
  let p01 ← fmul x f01
  let f10 ← fsub 1 skew
  let p10 ← fmul x f10
  return (⌊p01 / 2⌋, ⌊p10 / 2⌋)

theorem div_pow_exact (m : ℕ) (t G : ℤ) (hGt : G ≤ t) :
    (m : ℚ) * (2 : ℚ) ^ t / (2 : ℚ) ^ G = ((m * 2 ^ (t - G).toNat : ℕ) : ℚ) := by
  rw [div_eq_iff (by positivity)]
  push_cast
  rw [show ((2 : ℚ) ^ ((t - G).toNat) : ℚ) = (2 : ℚ) ^ (((t - G).toNat : ℤ)) from
        (zpow_natCast 2 _).symm,
      mul_assoc, ← zpow_add₀ (two_ne_zero) (((t - G).toNat : ℤ)) G,
      show ((t - G).toNat : ℤ) + G = t by omega]

theorem fround_core (m : ℕ) (t e G : ℤ) (hm : 0 < m)
    (he : Int.log 2 ((m : ℚ) * (2 : ℚ) ^ t) = e)
    (hgsel : (if -1022 ≤ e then (2 : ℚ) ^ (e - 52) else (2 : ℚ) ^ (-1074 : ℤ)) = (2 : ℚ) ^ G)
    (hGt : G ≤ t)
    (hv : (m : ℚ) * (2 : ℚ) ^ t < 2 ^ 1024) :
    fround ((m : ℚ) * (2 : ℚ) ^ t) = some ((m : ℚ) * (2 : ℚ) ^ t) := by
  have hqpos : (0 : ℚ) < (m : ℚ) * (2 : ℚ) ^ t := by positivity
  have habs : |((m : ℚ) * (2 : ℚ) ^ t)| = (m : ℚ) * (2 : ℚ) ^ t := abs_of_pos hqpos
  have hqg := div_pow_exact m t G hGt
  have hvq : ((m * 2 ^ (t - G).toNat : ℕ) : ℚ) * (2 : ℚ) ^ G = (m : ℚ) * (2 : ℚ) ^ t := by
    rw [← hqg, div_mul_cancel₀ _ (by positivity : ((2 : ℚ) ^ G) ≠ 0)]
  simp only [fround]
  rw [if_neg hqpos.ne', habs, he, hgsel, hqg, Int.floor_natCast]
  push_cast
  rw [sub_self]
  norm_num
  push_cast at hvq
  rw [hvq, if_pos hqpos]
  exact ⟨lt_of_lt_of_eq hv (by norm_num), rfl⟩

/-- Rounding is the identity on exactly representable values `m · 2^t` with a
53-bit significand inside the finite double range. -/
theorem fround_exact (m : ℕ) (t : ℤ) (hm : m < 2 ^ 53) (ht : -1074 ≤ t)
    (hv : (m : ℚ) * (2 : ℚ) ^ t < 2 ^ 1024) :
    fround ((m : ℚ) * (2 : ℚ) ^ t) = some ((m : ℚ) * (2 : ℚ) ^ t) := by
  rcases Nat.eq_zero_or_pos m with hm0 | hmpos
  · subst hm0
    norm_num [fround]
  have hqpos : (0 : ℚ) < (m : ℚ) * (2 : ℚ) ^ t := by positivity
  have hlow : (2 : ℚ) ^ (Int.log 2 ((m : ℚ) * (2 : ℚ) ^ t)) ≤ (m : ℚ) * (2 : ℚ) ^ t := by
    have := Int.zpow_log_le_self (b := 2) (R := ℚ) (by norm_num) hqpos
    simpa using this
  have h53 : (m : ℚ) * (2 : ℚ) ^ t < (2 : ℚ) ^ (53 + t) := by
    rw [zpow_add₀ (two_ne_zero)]
    have hmq : (m : ℚ) < 2 ^ 53 := by exact_mod_cast hm
    have h5 : ((2 : ℚ) ^ (53 : ℤ)) = 2 ^ (53 : ℕ) := by norm_num
    rw [h5]
    exact mul_lt_mul_of_pos_right hmq (by positivity)
  have het : Int.log 2 ((m : ℚ) * (2 : ℚ) ^ t) ≤ 52 + t := by
    have h := lt_of_le_of_lt hlow h53
    have := (zpow_lt_zpow_iff_right₀ (by norm_num : (1 : ℚ) < 2)).mp h
    omega
  by_cases hcase : -1022 ≤ Int.log 2 ((m : ℚ) * (2 : ℚ) ^ t)
  · exact fround_core m t _ _ hmpos rfl (if_pos hcase) (by omega) hv
  · exact fround_core m t _ _ hmpos rfl (if_neg hcase) (by omega) hv

theorem fround_exact_div (m j : ℕ) (hm : m < 2 ^ 53) (hj : j ≤ 1074) :
    fround ((m : ℚ) / 2 ^ j) = some ((m : ℚ) / 2 ^ j) := by
  have h : (m : ℚ) / 2 ^ j = (m : ℚ) * (2 : ℚ) ^ (-(j : ℤ)) := by
    rw [zpow_neg, zpow_natCast]
    ring
  rw [h]
  refine fround_exact m _ hm (by omega) ?_
  rw [← h]
  have h1 : (m : ℚ) / 2 ^ j ≤ m := by
    apply div_le_self (by positivity)
    have h2 : (1 : ℕ) ≤ 2 ^ j := Nat.one_le_two_pow
    exact_mod_cast h2
  calc (m : ℚ) / 2 ^ j ≤ m := h1
  _ < 2 ^ 53 := by exact_mod_cast hm
  _ < 2 ^ 1024 := by norm_num

theorem intToDouble_small (n : ℤ) (h0 : 0 ≤ n) (h : n < 2 ^ 53) :
    intToDouble n = some ((n : ℚ)) := by
  unfold intToDouble
  rcases eq_or_lt_of_le h0 with heq | hpos
  · rw [if_pos heq.symm, ← heq]
    norm_num
  · rw [if_neg (by omega), if_pos hpos]
    have hrd : roundToDouble n.toNat = n.toNat := by
      unfold roundToDouble
      rw [if_pos (by omega)]
    rw [hrd, if_pos (by omega)]
    congr 1
    exact_mod_cast congrArg (fun w : ℤ => (w : ℚ)) (Int.toNat_of_nonneg h0)

theorem intToDouble_pow53_add_three :
    intToDouble (2 ^ 53 + 3) = some ((9007199254740996 : ℚ)) := by
  unfold intToDouble
  rw [if_neg (by norm_num), if_pos (by norm_num)]
  have h1 : ((2 ^ 53 + 3 : ℤ)).toNat = 9007199254740995 := by
    rw [show (2 ^ 53 + 3 : ℤ) = ((9007199254740995 : ℕ) : ℤ) by norm_num]
    exact Int.toNat_natCast _
  have h2 : roundToDouble 9007199254740995 = 9007199254740996 := by decide
  rw [h1, h2, if_pos (by norm_num)]
  norm_num

theorem fround_pow53_add_four :
    fround ((9007199254740996 : ℚ) * 1) = some (9007199254740996 : ℚ) := by
  rw [mul_one]
  have h : (9007199254740996 : ℚ) = ((2251799813685249 : ℕ) : ℚ) * (2 : ℚ) ^ (2 : ℤ) := by
    rw [show ((2 : ℚ) ^ (2 : ℤ)) = 4 by norm_num]
    norm_num
  rw [h]
  exact fround_exact 2251799813685249 2 (by norm_num) (by norm_num) (by
    rw [← h]; norm_num)

theorem fround_one_add_zero : fround ((1 : ℚ) + 0) = some (1 : ℚ) := by
  norm_num
  have h : (1 : ℚ) = ((1 : ℕ) : ℚ) / 2 ^ 0 := by norm_num
  rw [h]
  exact fround_exact_div 1 0 (by norm_num) (by norm_num)

theorem calculate_position_liquidity_deltas_float_eval (L Ll : ℤ)
    (u s tot x f01 p01 f10 p10 : ℚ)
    (h1 : intToDouble (L + Ll) = some tot)
    (h2 : fmul tot u = some x)
    (h3 : fadd 1 s = some f01)
    (h4 : fmul x f01 = some p01)
    (h5 : fsub 1 s = some f10)
    (h6 : fmul x f10 = some p10) :
    calculate_position_liquidity_deltas_float L Ll u s = some (⌊p01 / 2⌋, ⌊p10 / 2⌋) := by
  unfold calculate_position_liquidity_deltas_float
  rw [h1]
  simp only [Option.bind_eq_bind, Option.some_bind]
  rw [h2]
  simp only [Option.some_bind]
  rw [h3]
  simp only [Option.some_bind]
  rw [h4]
  simp only [Option.some_bind]
  rw [h5]
  simp only [Option.some_bind]
  rw [h6]
  simp only [Option.some_bind]
  rfl

/-- C2 fails as stated: the source computes the products in IEEE-754 doubles,
and the int-to-double conversion of `total_liquidity` already rounds at
`2^53`.  At `liquidity = 2^53 + 3`, `liquidity_locked = 0`,
`utilization = 1.0`, `skew = 0.0` — parameters inside the claim's ranges —
the double total rounds (half to even) to `2^53 + 4`, so the program returns
`2^52 + 2 = 4503599627370498` in both slots, while the claimed floored closed
form `totalLiquidity·u·(1 ± s)/2` is `2^52 + 1 = 4503599627370497`. -/
theorem C2_counterexample :
    ((0 : ℚ) ≤ 1 ∧ (1 : ℚ) ≤ 1 ∧ (-1 : ℚ) ≤ 0 ∧ (0 : ℚ) ≤ 1) ∧
    calculate_position_liquidity_deltas_float (2 ^ 53 + 3) 0 1 0 =
      some (4503599627370498, 4503599627370498) ∧
    calculate_position_liquidity_deltas (2 ^ 53 + 3) 0 1 0 =
      (4503599627370497, 4503599627370497) ∧
    (4503599627370498 : ℤ) ≠ 4503599627370497 := by
  refine ⟨⟨by norm_num, by norm_num, by norm_num, by norm_num⟩, ?_, ?_, by norm_num⟩
  · have h := calculate_position_liquidity_deltas_float_eval (2 ^ 53 + 3) 0 1 0
      (9007199254740996 : ℚ) (9007199254740996 : ℚ) 1 (9007199254740996 : ℚ) 1
      (9007199254740996 : ℚ)
      (by rw [show ((2 ^ 53 + 3 : ℤ) + 0) = (2 ^ 53 + 3 : ℤ) by ring]
          exact intToDouble_pow53_add_three)
      fround_pow53_add_four fround_one_add_zero fround_pow53_add_four
      (by unfold fsub
          rw [show (1 : ℚ) - 0 = (1 : ℚ) + 0 by ring]
          exact fround_one_add_zero)
      fround_pow53_add_four
    rw [h]
    norm_num
  · unfold calculate_position_liquidity_deltas
    norm_num

/-- C2 amended: the deltas equal the floored closed forms exactly whenever
every intermediate double value is exact — concretely, for any
`totalLiquidity < 2^26` with `utilization` and `skew` 13-bit dyadic
fractions `p/2^13 ∈ [0,1]` and `z/2^13 ∈ [-1,1]` — but not for arbitrary
pool states, the double rounding of larger totals (from `2^53` on) shifting
the result. -/
theorem C2_amended_deltas_exact_on_dyadics (L Ll : ℤ) (p : ℕ) (z : ℤ)
    (hT0 : 0 ≤ L + Ll) (hT : L + Ll < 2 ^ 26)
    (hp : p ≤ 2 ^ 13) (hz0 : -2 ^ 13 ≤ z) (hz1 : z ≤ 2 ^ 13) :
    calculate_position_liquidity_deltas_float L Ll ((p : ℚ) / 2 ^ 13) ((z : ℚ) / 2 ^ 13) =
      some (⌊((L + Ll : ℤ) : ℚ) * ((p : ℚ) / 2 ^ 13) * (1 + (z : ℚ) / 2 ^ 13) / 2⌋,
            ⌊((L + Ll : ℤ) : ℚ) * ((p : ℚ) / 2 ^ 13) * (1 - (z : ℚ) / 2 ^ 13) / 2⌋) := by
  set T : ℤ := L + Ll with hTdef
  set m1 : ℕ := T.toNat * p with hm1
  set m2 : ℕ := (2 ^ 13 + z).toNat with hm2
  set m3 : ℕ := (2 ^ 13 - z).toNat with hm3
  have hTcast : ((T.toNat : ℕ) : ℚ) = ((T : ℤ) : ℚ) := by
    exact_mod_cast congrArg (fun w : ℤ => (w : ℚ)) (Int.toNat_of_nonneg hT0)
  have e1 : ((T : ℤ) : ℚ) * ((p : ℚ) / 2 ^ 13) = (m1 : ℚ) / 2 ^ 13 := by
    rw [hm1]
    push_cast [hTcast]
    rw [← hTcast]
    ring
  have e2 : (1 : ℚ) + (z : ℚ) / 2 ^ 13 = (m2 : ℚ) / 2 ^ 13 := by
    rw [hm2]
    have hc : (((2 ^ 13 + z).toNat : ℕ) : ℚ) = ((2 ^ 13 + z : ℤ) : ℚ) := by
      exact_mod_cast congrArg (fun w : ℤ => (w : ℚ)) (Int.toNat_of_nonneg (by omega))
    rw [hc]
    push_cast
    ring
  have e3 : (1 : ℚ) - (z : ℚ) / 2 ^ 13 = (m3 : ℚ) / 2 ^ 13 := by
    rw [hm3]
    have hc : (((2 ^ 13 - z).toNat : ℕ) : ℚ) = ((2 ^ 13 - z : ℤ) : ℚ) := by
      exact_mod_cast congrArg (fun w : ℤ => (w : ℚ)) (Int.toNat_of_nonneg (by omega))
    rw [hc]
    push_cast
    ring
  have e4 : ((m1 : ℚ) / 2 ^ 13) * ((m2 : ℚ) / 2 ^ 13) = ((m1 * m2 : ℕ) : ℚ) / 2 ^ 26 := by
    push_cast
    ring
  have e5 : ((m1 : ℚ) / 2 ^ 13) * ((m3 : ℚ) / 2 ^ 13) = ((m1 * m3 : ℕ) : ℚ) / 2 ^ 26 := by
    push_cast
    ring
  have hm1b : m1 < 2 ^ 53 := by
    have h1 : T.toNat ≤ 2 ^ 26 - 1 := by omega
    calc m1 ≤ (2 ^ 26 - 1) * 2 ^ 13 := Nat.mul_le_mul h1 hp
    _ < 2 ^ 53 := by norm_num
  have hm2b : m2 ≤ 2 ^ 14 := by omega
  have hm3b : m3 ≤ 2 ^ 14 := by omega
  have hm12 : m1 * m2 < 2 ^ 53 := by
    calc m1 * m2 ≤ ((2 ^ 26 - 1) * 2 ^ 13) * 2 ^ 14 :=
      Nat.mul_le_mul (Nat.mul_le_mul (by omega) hp) hm2b
    _ < 2 ^ 53 := by norm_num
  have hm13 : m1 * m3 < 2 ^ 53 := by
    calc m1 * m3 ≤ ((2 ^ 26 - 1) * 2 ^ 13) * 2 ^ 14 :=
      Nat.mul_le_mul (Nat.mul_le_mul (by omega) hp) hm3b
    _ < 2 ^ 53 := by norm_num
  have h1 : intToDouble (L + Ll) = some ((T : ℤ) : ℚ) := by
    rw [← hTdef]
    exact intToDouble_small T hT0 (by omega)
  have h2 : fmul ((T : ℤ) : ℚ) ((p : ℚ) / 2 ^ 13) = some ((m1 : ℚ) / 2 ^ 13) := by
    unfold fmul
    rw [e1]
    exact fround_exact_div m1 13 hm1b (by norm_num)
  have h3 : fadd 1 ((z : ℚ) / 2 ^ 13) = some ((m2 : ℚ) / 2 ^ 13) := by
    unfold fadd
    rw [e2]
    exact fround_exact_div m2 13 (by omega) (by norm_num)
  have h4 : fmul ((m1 : ℚ) / 2 ^ 13) ((m2 : ℚ) / 2 ^ 13) =
      some (((m1 * m2 : ℕ) : ℚ) / 2 ^ 26) := by
    unfold fmul
    rw [e4]
    exact fround_exact_div (m1 * m2) 26 hm12 (by norm_num)
  have h5 : fsub 1 ((z : ℚ) / 2 ^ 13) = some ((m3 : ℚ) / 2 ^ 13) := by
    unfold fsub
    rw [e3]
    exact fround_exact_div m3 13 (by omega) (by norm_num)
  have h6 : fmul ((m1 : ℚ) / 2 ^ 13) ((m3 : ℚ) / 2 ^ 13) =
      some (((m1 * m3 : ℕ) : ℚ) / 2 ^ 26) := by
    unfold fmul
    rw [e5]
    exact fround_exact_div (m1 * m3) 26 hm13 (by norm_num)
  have hmain := calculate_position_liquidity_deltas_float_eval L Ll
    ((p : ℚ) / 2 ^ 13) ((z : ℚ) / 2 ^ 13)
    ((T : ℤ) : ℚ) ((m1 : ℚ) / 2 ^ 13) ((m2 : ℚ) / 2 ^ 13) (((m1 * m2 : ℕ) : ℚ) / 2 ^ 26)
    ((m3 : ℚ) / 2 ^ 13) (((m1 * m3 : ℕ) : ℚ) / 2 ^ 26) h1 h2 h3 h4 h5 h6
  rw [hmain]
  have f1 : ((m1 * m2 : ℕ) : ℚ) / 2 ^ 26 =
      ((T : ℤ) : ℚ) * ((p : ℚ) / 2 ^ 13) * (1 + (z : ℚ) / 2 ^ 13) := by
    rw [← e4, ← e1, ← e2]
  have f2 : ((m1 * m3 : ℕ) : ℚ) / 2 ^ 26 =
      ((T : ℤ) : ℚ) * ((p : ℚ) / 2 ^ 13) * (1 - (z : ℚ) / 2 ^ 13) := by
    rw [← e5, ← e1, ← e3]
  rw [f1, f2]

/-- Witness for the amended C2 at a concrete input: utilization `1/2` and
skew `1/4` as 13-bit dyadics over total liquidity 120. -/
theorem C2_amended_deltas_exact_on_dyadics_witness :
    ((0 : ℤ) ≤ 100 + 20 ∧ (100 + 20 : ℤ) < 2 ^ 26 ∧ (4096 : ℕ) ≤ 2 ^ 13 ∧
      (-2 ^ 13 : ℤ) ≤ 2048 ∧ (2048 : ℤ) ≤ 2 ^ 13) ∧
    calculate_position_liquidity_deltas_float 100 20
        (((4096 : ℕ) : ℚ) / 2 ^ 13) (((2048 : ℤ) : ℚ) / 2 ^ 13) =
      some (⌊((100 + 20 : ℤ) : ℚ) * (((4096 : ℕ) : ℚ) / 2 ^ 13) *
              (1 + ((2048 : ℤ) : ℚ) / 2 ^ 13) / 2⌋,
            ⌊((100 + 20 : ℤ) : ℚ) * (((4096 : ℕ) : ℚ) / 2 ^ 13) *
              (1 - ((2048 : ℤ) : ℚ) / 2 ^ 13) / 2⌋) :=
  ⟨⟨by norm_num, by norm_num, by norm_num, by norm_num, by norm_num⟩,
    C2_amended_deltas_exact_on_dyadics 100 20 4096 2048 (by norm_num) (by norm_num)
      (by norm_num) (by norm_num) (by norm_num)⟩

/-- C5: for positive `sqrtPriceX96`, `get_mrglv1_amounts_for_liquidity`
returns exactly the floors of `liquidity·2^96 / sqrtPriceX96` and
`liquidity·sqrtPriceX96 / 2^96`. -/
theorem C5_amounts_for_liquidity_floor (sqrt_price_x96 liquidity : ℤ)
    (h : 0 < sqrt_price_x96) :
    get_mrglv1_amounts_for_liquidity sqrt_price_x96 liquidity =
      some (⌊(liquidity : ℚ) * 2 ^ 96 / (sqrt_price_x96 : ℚ)⌋,
            ⌊(liquidity : ℚ) * (sqrt_price_x96 : ℚ) / 2 ^ 96⌋) := by
  unfold get_mrglv1_amounts_for_liquidity
  rw [pyFloorDiv_pos _ _ h, pyFloorDiv_pos _ _ (by positivity : (0:ℤ) < 2 ^ 96)]
  simp only [Option.bind_eq_bind, Option.some_bind]
  congr 2 <;> push_cast <;> ring_nf

/-- Witness for C5 at a concrete input. -/
theorem C5_amounts_for_liquidity_floor_witness :
    (0:ℤ) < 3 ∧
    get_mrglv1_amounts_for_liquidity 3 5 =
      some (⌊(5 : ℚ) * 2 ^ 96 / (3 : ℚ)⌋, ⌊(5 : ℚ) * (3 : ℚ) / 2 ^ 96⌋) :=
  ⟨by norm_num, C5_amounts_for_liquidity_floor 3 5 (by norm_num)⟩

/-- C6: with skew 0 the two deltas agree; with skew 1 the zeroForOne=false
delta is 0; with skew −1 the zeroForOne=true delta is 0. -/
theorem C6_skew_symmetry (liquidity liquidity_locked : ℤ) (u : ℚ)
    (hu0 : 0 ≤ u) (hu1 : u ≤ 1) :
    (calculate_position_liquidity_deltas liquidity liquidity_locked u 0).1 =
      (calculate_position_liquidity_deltas liquidity liquidity_locked u 0).2 ∧
    (calculate_position_liquidity_deltas liquidity liquidity_locked u 1).2 = 0 ∧
    (calculate_position_liquidity_deltas liquidity liquidity_locked u (-1)).1 = 0 := by
  unfold calculate_position_liquidity_deltas
  norm_num

/-- Witness for C6 at a concrete input. -/
theorem C6_skew_symmetry_witness :
    (0:ℚ) ≤ 3/4 ∧ (3:ℚ)/4 ≤ 1 ∧
    ((calculate_position_liquidity_deltas 7 3 (3/4) 0).1 =
      (calculate_position_liquidity_deltas 7 3 (3/4) 0).2 ∧
    (calculate_position_liquidity_deltas 7 3 (3/4) 1).2 = 0 ∧
    (calculate_position_liquidity_deltas 7 3 (3/4) (-1)).1 = 0) :=
  ⟨by norm_num, by norm_num, C6_skew_symmetry 7 3 (3/4) (by norm_num) (by norm_num)⟩

/-- C7 fails as stated: with total liquidity 1 and skew 0, utilizations 1/4
and 1/2 give identical deltas (0, 0), so increasing utilization does not
strictly increase the deltas even for positive utilization. -/
theorem C7_counterexample :
    (0:ℚ) < 1/4 ∧ (1:ℚ)/4 < 1/2 ∧ (1:ℚ)/2 ≤ 1 ∧ (-1:ℚ) ≤ 0 ∧ (0:ℚ) ≤ 1 ∧
    calculate_position_liquidity_deltas 1 0 (1/4) 0 = (0, 0) ∧
    calculate_position_liquidity_deltas 1 0 (1/2) 0 = (0, 0) := by
  unfold calculate_position_liquidity_deltas
  norm_num

/-- C7 amended: increasing utilization with fixed skew increases both deltas
monotonically (non-strictly); strictness fails because of the integer floor
(and at skew ±1, where one delta is constantly 0). -/
theorem C7_amended_monotone (liquidity liquidity_locked : ℤ) (s u1 u2 : ℚ)
    (hs0 : -1 ≤ s) (hs1 : s ≤ 1) (hu0 : 0 ≤ u1) (hu12 : u1 ≤ u2)
    (hL : 0 ≤ liquidity + liquidity_locked) :
    (calculate_position_liquidity_deltas liquidity liquidity_locked u1 s).1 ≤
      (calculate_position_liquidity_deltas liquidity liquidity_locked u2 s).1 ∧
    (calculate_position_liquidity_deltas liquidity liquidity_locked u1 s).2 ≤
      (calculate_position_liquidity_deltas liquidity liquidity_locked u2 s).2 := by
  unfold calculate_position_liquidity_deltas
  have hT : (0:ℚ) ≤ (liquidity : ℚ) + (liquidity_locked : ℚ) := by exact_mod_cast hL
  have h1p : (0:ℚ) ≤ 1 + s := by linarith
  have h1m : (0:ℚ) ≤ 1 - s := by linarith
  have hu12' : (0:ℚ) ≤ u2 - u1 := by linarith
  have key1 : (0:ℚ) ≤ ((liquidity : ℚ) + liquidity_locked) * (u2 - u1) * (1 + s) :=
    mul_nonneg (mul_nonneg hT hu12') h1p
  have key2 : (0:ℚ) ≤ ((liquidity : ℚ) + liquidity_locked) * (u2 - u1) * (1 - s) :=
    mul_nonneg (mul_nonneg hT hu12') h1m
  constructor <;> apply Int.floor_le_floor
  · nlinarith [key1]
  · nlinarith [key2]

/-- Witness for the amended C7 at a concrete input. -/
theorem C7_amended_monotone_witness :
    ((-1:ℚ) ≤ 0 ∧ (0:ℚ) ≤ 1 ∧ (0:ℚ) ≤ 1/4 ∧ (1:ℚ)/4 ≤ 1/2 ∧ (0:ℤ) ≤ 1 + 0) ∧
    ((calculate_position_liquidity_deltas 1 0 (1/4) 0).1 ≤
      (calculate_position_liquidity_deltas 1 0 (1/2) 0).1 ∧
    (calculate_position_liquidity_deltas 1 0 (1/4) 0).2 ≤
      (calculate_position_liquidity_deltas 1 0 (1/2) 0).2) :=
  ⟨⟨by norm_num, by norm_num, by norm_num, by norm_num, by norm_num⟩,
    C7_amended_monotone 1 0 0 (1/4) (1/2) (by norm_num) (by norm_num) (by norm_num)
      (by norm_num) (by norm_num)⟩

/-! Claim C9: the zero-fee-volume guard in `simulate_swaps`. -/

/-- C9: when the computed swap input `amount1_in` is zero, `simulate_swaps`
executes no swap and returns the runner state unchanged — in particular
`net_liquidity_swap_fees_cumulative` is untouched. -/
theorem C9_simulate_swaps_zero_amount (st : RunnerState) (state : RefState)
    (env : SwapsEnv) (h : simulate_swaps_amount1_in st state env = some 0) :
    simulate_swaps st state env = some (st, []) := by
  unfold simulate_swaps
  rw [h]
  rfl

/-- Concrete runner state used by witnesses. -/
def cSt : RunnerState where
  token_ids := fun _ => -1
  blocks_settle := fun _ => -1
  positions_liquidated_cumulative := fun _ => 0
  positions_settled_cumulative := fun _ => 0
  sizes_liquidated_cumulative := fun _ => 0
  sizes_settled_cumulative := fun _ => 0
  net_liquidity_liquidated_cumulative := fun _ => 0
  net_liquidity_settled_cumulative := fun _ => 0
  net_liquidity_swap_fees_cumulative := 0
  last_univ3_fee_growth_global_x128 := fun _ => 50

/-- Concrete reference state used by witnesses (fee growth unchanged since the
last update). -/
def cRef : RefState := ⟨2 ^ 96, 5, 50, 50⟩

/-- Concrete mock-pool responses used by witnesses. -/
def cEnv : SwapsEnv := ⟨7, 3000, 0, 7, 2 ^ 96⟩

theorem cAmount_eq_zero : simulate_swaps_amount1_in cSt cRef cEnv = some 0 := by
  simp only [simulate_swaps_amount1_in, cSt, cRef, cEnv]
  norm_num [pyFloorDiv, pyTrunc, Int.zero_fdiv, FEE_UNIT]

/-- Witness for C9 at a concrete input (equal cumulative fee growth between
updates, so the desired volume and hence the input amount are zero). -/
theorem C9_simulate_swaps_zero_amount_witness :
    simulate_swaps_amount1_in cSt cRef cEnv = some 0 ∧
    simulate_swaps cSt cRef cEnv = some (cSt, []) :=
  ⟨cAmount_eq_zero, C9_simulate_swaps_zero_amount cSt cRef cEnv cAmount_eq_zero⟩

/-! Claims C8 and C10: the position snapshot helpers. -/

/-- Debt-without-funding read by the snapshot loop for a slot holding
`token_id` (runners/lp.py line 146): the pool-side `debt0`/`debt1` selected by
the manager position's direction. -/
def dwfAt (mgr : ℤ → PositionRec) (pool : ℤ → PoolPositionRec) (token_id : ℤ) : ℤ :=
  let position := mgr token_id
  let pposition := pool position.positionId
  if position.zeroForOne then pposition.debt0 else pposition.debt1

/-- C8: the snapshot reports funding rate `debt / debtWithoutFunding − 1` for
each slot, and fails (`none`, the surfaced `ZeroDivisionError`) exactly when
some slot's debt-without-funding is zero; no value is produced for any slot
in that case. -/
theorem C8_funding_rate_snapshot (mgr : ℤ → PositionRec) (pool : ℤ → PoolPositionRec)
    (token_ids : Fin 2 → ℤ) :
    (get_positions_values mgr pool token_ids = none ↔
      dwfAt mgr pool (token_ids 0) = 0 ∨ dwfAt mgr pool (token_ids 1) = 0) ∧
    (dwfAt mgr pool (token_ids 0) ≠ 0 → dwfAt mgr pool (token_ids 1) ≠ 0 →
      get_positions_values mgr pool token_ids =
        some (⟨(mgr (token_ids 0)).size, (mgr (token_ids 0)).margin, (mgr (token_ids 0)).debt,
               dwfAt mgr pool (token_ids 0),
               ((mgr (token_ids 0)).debt : ℚ) / (dwfAt mgr pool (token_ids 0) : ℚ) - 1⟩,
              ⟨(mgr (token_ids 1)).size, (mgr (token_ids 1)).margin, (mgr (token_ids 1)).debt,
               dwfAt mgr pool (token_ids 1),
               ((mgr (token_ids 1)).debt : ℚ) / (dwfAt mgr pool (token_ids 1) : ℚ) - 1⟩)) := by
  unfold get_positions_values positions_values_slot dwfAt
  by_cases h0 : (if (mgr (token_ids 0)).zeroForOne then
      (pool (mgr (token_ids 0)).positionId).debt0
    else (pool (mgr (token_ids 0)).positionId).debt1) = 0 <;>
  by_cases h1 : (if (mgr (token_ids 1)).zeroForOne then
      (pool (mgr (token_ids 1)).positionId).debt0
    else (pool (mgr (token_ids 1)).positionId).debt1) = 0 <;>
  simp [h0, h1]

/-- Concrete manager responses used by witnesses: every queried token id (the
empty-slot id −1 included) yields the same position record. -/
def cMgr : ℤ → PositionRec := fun _ => ⟨7, true, 11, 12, 13, true⟩

/-- Concrete pool position responses used by witnesses. -/
def cPool : ℤ → PoolPositionRec := fun _ => ⟨true, 1, 2, 3, 4, 5, 6, 9⟩

/-- Concrete occupied token-id slots used by witnesses. -/
def cTokenIds : Fin 2 → ℤ := fun i => if i.val = 0 then 5 else 6

/-- Witness for C8 at a concrete input. -/
theorem C8_funding_rate_snapshot_witness :
    dwfAt cMgr cPool (cTokenIds 0) ≠ 0 ∧ dwfAt cMgr cPool (cTokenIds 1) ≠ 0 ∧
    get_positions_values cMgr cPool cTokenIds =
      some (⟨11, 12, 13, 3, ((13 : ℤ) : ℚ) / ((3 : ℤ) : ℚ) - 1⟩,
            ⟨11, 12, 13, 3, ((13 : ℤ) : ℚ) / ((3 : ℤ) : ℚ) - 1⟩) := by
  refine ⟨by decide, by decide, ?_⟩
  exact (C8_funding_rate_snapshot cMgr cPool cTokenIds).2 (by decide) (by decide)

/-- C10: with both slots empty (`token_id = -1`), the snapshot helpers still
query the manager at token id −1 and use whatever record it returns:
`get_positions_values` divides by the returned debt-without-funding with no
occupancy or nonzero guard, and `get_positions_amounts_locked` computes the
locked amounts from the returned pool record for both slots. -/
theorem C10_empty_slots_queried (mgr : ℤ → PositionRec) (pool : ℤ → PoolPositionRec) :
    (get_positions_values mgr pool (fun _ => -1) = none ↔ dwfAt mgr pool (-1) = 0) ∧
    (dwfAt mgr pool (-1) ≠ 0 →
      get_positions_values mgr pool (fun _ => -1) =
        some (⟨(mgr (-1)).size, (mgr (-1)).margin, (mgr (-1)).debt, dwfAt mgr pool (-1),
               ((mgr (-1)).debt : ℚ) / (dwfAt mgr pool (-1) : ℚ) - 1⟩,
              ⟨(mgr (-1)).size, (mgr (-1)).margin, (mgr (-1)).debt, dwfAt mgr pool (-1),
               ((mgr (-1)).debt : ℚ) / (dwfAt mgr pool (-1) : ℚ) - 1⟩)) ∧
    (∀ i : Fin 2, get_positions_amounts_locked mgr pool (fun _ => -1) i =
        (if (pool (mgr (-1)).positionId).zeroForOne = false then
          ((pool (mgr (-1)).positionId).size + (pool (mgr (-1)).positionId).margin +
            (pool (mgr (-1)).positionId).debt0 + (pool (mgr (-1)).positionId).insurance0,
           (pool (mgr (-1)).positionId).insurance1)
        else
          ((pool (mgr (-1)).positionId).insurance0,
           (pool (mgr (-1)).positionId).size + (pool (mgr (-1)).positionId).margin +
            (pool (mgr (-1)).positionId).debt1 + (pool (mgr (-1)).positionId).insurance1))) := by
  refine ⟨?_, ?_, ?_⟩
  · unfold get_positions_values positions_values_slot dwfAt
    by_cases h : (if (mgr (-1)).zeroForOne then (pool (mgr (-1)).positionId).debt0
        else (pool (mgr (-1)).positionId).debt1) = 0 <;> simp [h]
  · intro h
    unfold dwfAt at h
    unfold get_positions_values positions_values_slot dwfAt
    simp [h]
  · intro i
    unfold get_positions_amounts_locked positions_amounts_locked_slot
    rfl

/-- Witness for C10 at a concrete input. -/
theorem C10_empty_slots_queried_witness :
    dwfAt cMgr cPool (-1) ≠ 0 ∧
    get_positions_values cMgr cPool (fun _ => -1) =
      some (⟨11, 12, 13, 3, ((13 : ℤ) : ℚ) / ((3 : ℤ) : ℚ) - 1⟩,
            ⟨11, 12, 13, 3, ((13 : ℤ) : ℚ) / ((3 : ℤ) : ℚ) - 1⟩) ∧
    get_positions_amounts_locked cMgr cPool (fun _ => -1) 0 = (5, 1 + 2 + 4 + 6) := by
  refine ⟨by decide, (C10_empty_slots_queried cMgr cPool).2.1 (by decide), ?_⟩
  simpa using (C10_empty_slots_queried cMgr cPool).2.2 0

/-! Claim C3: error behavior of the math library. -/

theorem next_open_self_none (sp δ m : ℤ) (hm : 0 ≤ m) :
    get_mrglv1_sqrt_price_x96_next_open δ sp δ false m = none := by
  unfold get_mrglv1_sqrt_price_x96_next_open
  have hU : MAINTENANCE_UNIT + m ≠ 0 := by unfold MAINTENANCE_UNIT; omega
  have hnum : δ * (δ - δ) * MAINTENANCE_UNIT = 0 := by ring
  rw [pyFloorDiv, if_neg hU, hnum, Int.zero_fdiv]
  simp only [Option.bind_eq_bind, mul_zero, sub_zero, Option.some_bind]
  have hpos : ¬(δ ^ 2 < 0) := not_lt.mpr (sq_nonneg δ)
  rw [if_neg hpos]
  cases hroot : pyIntSqrtFloat (δ ^ 2).toNat with
  | none => simp [hroot]
  | some root => simp [hroot, pyFloorDiv]

theorem size_self_none (sp δ m : ℤ) (hm : 0 ≤ m) :
    get_mrglv1_size_from_liquidity_delta δ sp δ false m = none := by
  unfold get_mrglv1_size_from_liquidity_delta
  rw [next_open_self_none sp δ m hm]
  rfl

set_option maxRecDepth 400000 in
/-- C3 amended: the math functions do fail on division by zero — amounts on
`sqrtPriceX96 = 0`, insurances on a zero price divisor, debts on
`sqrtPriceX96Next = 0`, next-sqrt-price and size on
`liquidity = liquidityDelta` (the denominator `2(liquidity − liquidityDelta)`
vanishes) — but they do NOT enforce the postconditions
`0 < sqrtPriceX96Next` and `liquidity > liquidityDelta`: there are inputs with
`liquidityDelta > liquidity` on which the next-sqrt-price computation returns
an ordinary (non-positive) numeric result. -/
theorem C3_amended_divide_by_zero_only :
    (∀ liquidity : ℤ, get_mrglv1_amounts_for_liquidity 0 liquidity = none) ∧
    (∀ sp δ m : ℤ, 0 ≤ m → get_mrglv1_sqrt_price_x96_next_open δ sp δ false m = none) ∧
    (∀ L δ spn : ℤ, get_mrglv1_insurances L 0 spn δ false = none) ∧
    (∀ δ i0 i1 : ℤ, get_mrglv1_debts 0 δ i0 i1 = none) ∧
    (∀ sp δ m : ℤ, 0 ≤ m → get_mrglv1_size_from_liquidity_delta δ sp δ false m = none) ∧
    (∃ L sp δ m r : ℤ, δ > L ∧ 0 ≤ m ∧ r ≤ 0 ∧
      get_mrglv1_sqrt_price_x96_next_open L sp δ false m = some r) := by
  refine ⟨?_, fun sp δ m hm => next_open_self_none sp δ m hm, ?_, ?_,
    fun sp δ m hm => size_self_none sp δ m hm, ?_⟩
  · intro liquidity
    unfold get_mrglv1_amounts_for_liquidity
    simp [pyFloorDiv]
  · intro L δ spn
    unfold get_mrglv1_insurances
    simp [pyFloorDiv]
  · intro δ i0 i1
    unfold get_mrglv1_debts
    simp [pyFloorDiv]
  · refine ⟨1, 1, 2, 250000, -2, by norm_num, by norm_num, by norm_num, ?_⟩
    decide

/-- Witness for the amended C3 at concrete inputs. -/
theorem C3_amended_divide_by_zero_only_witness :
    get_mrglv1_amounts_for_liquidity 0 5 = none ∧
    (0:ℤ) ≤ 3 ∧
    get_mrglv1_sqrt_price_x96_next_open 7 1 7 false 3 = none ∧
    get_mrglv1_size_from_liquidity_delta 7 1 7 false 3 = none :=
  ⟨C3_amended_divide_by_zero_only.1 5, by norm_num,
   C3_amended_divide_by_zero_only.2.1 1 7 3 (by norm_num),
   C3_amended_divide_by_zero_only.2.2.2.2.1 1 7 3 (by norm_num)⟩

set_option maxRecDepth 400000 in
/-- C3 fails as stated: at `liquidity = 1 < 2 = liquidityDelta` (and
`maintenance = 250000`, the runner default) the next-sqrt-price computation
does not fail; it returns the ordinary numeric result −2, which also violates
`0 < sqrtPriceX96Next`. -/
theorem C3_counterexample :
    ¬ ((1:ℤ) > 2) ∧ (-2:ℤ) ≤ 0 ∧
    get_mrglv1_sqrt_price_x96_next_open 1 1 2 false 250000 = some (-2) :=
  ⟨by norm_num, by norm_num, by decide⟩

/-! Claim C4: exactness of the square root in the next-sqrt-price
computation. -/

theorem isqrt_sq (k : ℕ) : isqrt (k * k) = k := by
  rw [isqrt_eq_sqrt]; exact Nat.sqrt_eq k

set_option maxRecDepth 2000000 in
/-- C4 fails as stated: the square root is `int(math.sqrt(·))`, an IEEE-754
double operation, not an exact integer square root.  At
`liquidity = 2^53 + 3`, `liquidityDelta = 1`, `maintenance = 0` the radicand
is `(2^53 + 1)^2`; the double pipeline returns root `2^53` where the exact
integer square root is `2^53 + 1`, and the function's result differs from the
exact-integer-formula result (`2^96` exactly) by about `2^42`. -/
theorem C4_counterexample :
    get_mrglv1_sqrt_price_x96_next_open (2 ^ 53 + 3) (2 ^ 96) 1 false 0 =
      some 79228162514264333195497439232 ∧
    get_mrglv1_sqrt_price_x96_next_open_exact (2 ^ 53 + 3) (2 ^ 96) 1 false 0 =
      some 79228162514264337593543950336 ∧
    (79228162514264333195497439232 : ℤ) ≠ 79228162514264337593543950336 :=
  ⟨by decide, by decide, by decide⟩

set_option maxRecDepth 400000 in
/-- C4 amended: the square root in the next-sqrt-price computation routes
through double precision (`int(math.sqrt(·))`); it coincides with the exact
integer square root on radicands that are exactly representable perfect
squares (below `2^53`), but not for arbitrary operand sizes, so the functions'
results equal the exact integer formulas only in that range.  All remaining
arithmetic is exact integer arithmetic. -/
theorem C4_amended_exact_on_small_squares (k : ℕ) (hk : k * k < 2 ^ 53) :
    pyIntSqrtFloat (k * k) = some (Nat.sqrt (k * k)) := by
  rw [Nat.sqrt_eq k]
  rcases Nat.eq_zero_or_pos k with hk0 | hkpos
  · subst hk0; decide
  have hround : roundToDouble (k * k) = k * k := by
    unfold roundToDouble; rw [if_pos hk]
  have hne : k * k ≠ 0 := by positivity
  have hs : isqrt (k * k) = k := isqrt_sq k
  have hklt : k < 2 ^ 27 := by
    by_contra h
    push_neg at h
    have h54 : 2 ^ 27 * 2 ^ 27 ≤ k * k := Nat.mul_le_mul h h
    norm_num at h54
    omega
  have hE : bitlen k ≤ 27 := bitsFuel_le k k hklt
  have hgoal : floorDoubleSqrt (k * k) = k := by
    unfold floorDoubleSqrt
    rw [if_neg hne]
    simp only [hs]
    have hc53 : (bitlen k ≤ 53) = True := eq_true (by omega)
    have hc54 : (bitlen k ≤ 54) = True := eq_true (by omega)
    have hc53' : (53 ≤ bitlen k) = False := eq_false (by omega)
    have hk0eq : isqrt (k * k * 4 ^ (53 - bitlen k)) = k * 2 ^ (53 - bitlen k) := by
      have hx : k * k * 4 ^ (53 - bitlen k) =
          (k * 2 ^ (53 - bitlen k)) * (k * 2 ^ (53 - bitlen k)) := by
        rw [show (4:ℕ) = 2 * 2 by norm_num, mul_pow]
        ring
      rw [hx, isqrt_sq]
    have hid : k * k * 2 ^ (108 - 2 * bitlen k) =
        (2 * (k * 2 ^ (53 - bitlen k))) * (2 * (k * 2 ^ (53 - bitlen k))) := by
      have h2 : 108 - 2 * bitlen k = (53 - bitlen k) + (53 - bitlen k) + 2 := by omega
      rw [h2, pow_add, pow_add]
      ring
    have hroundup : ((2 * (k * 2 ^ (53 - bitlen k)) + 1) * (2 * (k * 2 ^ (53 - bitlen k)) + 1) <
          k * k * 2 ^ (108 - 2 * bitlen k) ∨
        ((2 * (k * 2 ^ (53 - bitlen k)) + 1) * (2 * (k * 2 ^ (53 - bitlen k)) + 1) =
          k * k * 2 ^ (108 - 2 * bitlen k) ∧ (k * 2 ^ (53 - bitlen k)) % 2 = 1)) = False := by
      refine eq_false ?_
      rw [hid]
      rintro (h | ⟨h, _⟩)
      · nlinarith
      · nlinarith
    simp only [hc53, hc54, hc53', if_true, if_false, hk0eq, hroundup]
    exact Nat.mul_div_cancel k (pow_pos (by norm_num) _)
  simp only [pyIntSqrtFloat, hround]
  rw [if_pos (lt_trans hk (by norm_num)), hgoal]

/-- Witness for the amended C4 at a concrete input. -/
theorem C4_amended_exact_on_small_squares_witness :
    3 * 3 < 2 ^ 53 ∧ pyIntSqrtFloat (3 * 3) = some (Nat.sqrt (3 * 3)) :=
  ⟨by norm_num, C4_amended_exact_on_small_squares 3 (by norm_num)⟩

/-! Claim C1: per-slot exclusivity and priority of liquidate / settle / hold. -/

/-- Liquidation semantics applied to slot `i` across one update: the slot's
liquidated count increments, its cumulative liquidated size grows by the
position size, the slot becomes empty, and the settlement metrics are
untouched. -/
abbrev LiquidationApplied (env : ResolveEnv) (st st' : RunnerState) (i : Fin 2) : Prop :=
  st'.token_ids i = -1 ∧
  st'.positions_liquidated_cumulative i = st.positions_liquidated_cumulative i + 1 ∧
  st'.sizes_liquidated_cumulative i =
    st.sizes_liquidated_cumulative i + (env.manager_positions (st.token_ids i)).size ∧
  st'.positions_settled_cumulative i = st.positions_settled_cumulative i ∧
  st'.sizes_settled_cumulative i = st.sizes_settled_cumulative i

/-- Settlement semantics applied to slot `i`: settled metrics updated, slot
emptied, liquidation metrics untouched. -/
abbrev SettlementApplied (env : ResolveEnv) (st st' : RunnerState) (i : Fin 2) : Prop :=
  st'.token_ids i = -1 ∧
  st'.positions_settled_cumulative i = st.positions_settled_cumulative i + 1 ∧
  st'.sizes_settled_cumulative i =
    st.sizes_settled_cumulative i + (env.manager_positions (st.token_ids i)).size ∧
  st'.positions_liquidated_cumulative i = st.positions_liquidated_cumulative i ∧
  st'.sizes_liquidated_cumulative i = st.sizes_liquidated_cumulative i

/-- The slot is held: all its fields are unchanged. -/
abbrev SlotHeld (st st' : RunnerState) (i : Fin 2) : Prop :=
  st'.token_ids i = st.token_ids i ∧
  st'.blocks_settle i = st.blocks_settle i ∧
  st'.positions_liquidated_cumulative i = st.positions_liquidated_cumulative i ∧
  st'.positions_settled_cumulative i = st.positions_settled_cumulative i ∧
  st'.sizes_liquidated_cumulative i = st.sizes_liquidated_cumulative i ∧
  st'.sizes_settled_cumulative i = st.sizes_settled_cumulative i

theorem resolve_slot_unsafe (env : ResolveEnv) (number : ℤ) (st : RunnerState) (i : Fin 2)
    (hocc : st.token_ids i ≠ -1)
    (hsafe : (env.manager_positions (st.token_ids i)).safe = false) :
    LiquidationApplied env st (resolve_slot env number st i) i := by
  unfold resolve_slot
  simp [hocc, hsafe, Function.update_same]
  exact ⟨by simp, by simp, by simp, rfl, rfl⟩

theorem resolve_slot_settle (env : ResolveEnv) (number : ℤ) (st : RunnerState) (i : Fin 2)
    (hocc : st.token_ids i ≠ -1)
    (hsafe : (env.manager_positions (st.token_ids i)).safe = true)
    (hdue : st.blocks_settle i ≤ number) :
    SettlementApplied env st (resolve_slot env number st i) i := by
  unfold resolve_slot
  simp [hocc, hsafe, hdue, Function.update_same]
  exact ⟨by simp, by simp, by simp, rfl, rfl⟩

theorem resolve_slot_hold (env : ResolveEnv) (number : ℤ) (st : RunnerState) (i : Fin 2)
    (hsafe : (env.manager_positions (st.token_ids i)).safe = true)
    (hdue : number < st.blocks_settle i) :
    resolve_slot env number st i = st := by
  simp only [resolve_slot]
  split_ifs with h1 h2 h3
  · rfl
  · rw [hsafe] at h2; exact absurd h2 (by simp)
  · exact absurd h3 (not_le.mpr hdue)
  · rfl

theorem resolve_slot_frame (env : ResolveEnv) (number : ℤ) (st : RunnerState) (i j : Fin 2)
    (hij : j ≠ i) :
    (resolve_slot env number st i).token_ids j = st.token_ids j ∧
    (resolve_slot env number st i).blocks_settle j = st.blocks_settle j ∧
    (resolve_slot env number st i).positions_liquidated_cumulative j =
      st.positions_liquidated_cumulative j ∧
    (resolve_slot env number st i).positions_settled_cumulative j =
      st.positions_settled_cumulative j ∧
    (resolve_slot env number st i).sizes_liquidated_cumulative j =
      st.sizes_liquidated_cumulative j ∧
    (resolve_slot env number st i).sizes_settled_cumulative j =
      st.sizes_settled_cumulative j := by
  simp only [resolve_slot]
  split_ifs <;> simp [Function.update_noteq hij]

/-- C1: in every per-block update, each occupied slot gets exactly one of the
three treatments, with liquidation taking priority: an unsafe position is
liquidated (liquidated-count and cumulative liquidated size grow, the slot
empties, settlement metrics untouched) even when it is simultaneously past
its settle-due block; a safe position past its settle-due block is settled
(dually, with liquidation metrics untouched); otherwise the slot is held,
entirely unchanged.  Liquidation and settlement are never both applied to
the same slot in the same block. -/
theorem C1_resolve_exactly_one (env : ResolveEnv) (number : ℤ) (st : RunnerState) (i : Fin 2)
    (hocc : st.token_ids i ≠ -1) :
    ((env.manager_positions (st.token_ids i)).safe = false →
      LiquidationApplied env st (resolve_positions env number st) i) ∧
    ((env.manager_positions (st.token_ids i)).safe = true → st.blocks_settle i ≤ number →
      SettlementApplied env st (resolve_positions env number st) i) ∧
    ((env.manager_positions (st.token_ids i)).safe = true → number < st.blocks_settle i →
      SlotHeld st (resolve_positions env number st) i) := by
  unfold resolve_positions
  have h01 : i = 0 ∨ i = 1 := by
    rcases i with ⟨iv, hv⟩
    interval_cases iv
    exacts [Or.inl rfl, Or.inr rfl]
  rcases h01 with rfl | rfl
  · refine ⟨?_, ?_, ?_⟩
    · intro hsafe
      obtain ⟨a1, a2, a3, a4, a5⟩ := resolve_slot_unsafe env number st 0 hocc hsafe
      obtain ⟨f1, _, f3, f4, f5, f6⟩ :=
        resolve_slot_frame env number (resolve_slot env number st 0) 1 0 (by decide)
      exact ⟨by rw [f1, a1], by rw [f3, a2], by rw [f5, a3], by rw [f4, a4], by rw [f6, a5]⟩
    · intro hsafe hdue
      obtain ⟨a1, a2, a3, a4, a5⟩ := resolve_slot_settle env number st 0 hocc hsafe hdue
      obtain ⟨f1, _, f3, f4, f5, f6⟩ :=
        resolve_slot_frame env number (resolve_slot env number st 0) 1 0 (by decide)
      exact ⟨by rw [f1, a1], by rw [f4, a2], by rw [f6, a3], by rw [f3, a4], by rw [f5, a5]⟩
    · intro hsafe hdue
      rw [resolve_slot_hold env number st 0 hsafe hdue]
      obtain ⟨f1, f2, f3, f4, f5, f6⟩ := resolve_slot_frame env number st 1 0 (by decide)
      exact ⟨f1, f2, f3, f4, f5, f6⟩
  · obtain ⟨g1, g2, g3, g4, g5, g6⟩ := resolve_slot_frame env number st 0 1 (by decide)
    refine ⟨?_, ?_, ?_⟩
    · intro hsafe
      obtain ⟨a1, a2, a3, a4, a5⟩ := resolve_slot_unsafe env number (resolve_slot env number st 0)
        1 (by rw [g1]; exact hocc) (by rw [g1]; exact hsafe)
      exact ⟨a1, by rw [a2, g3], by rw [a3, g5, g1], by rw [a4, g4], by rw [a5, g6]⟩
    · intro hsafe hdue
      obtain ⟨a1, a2, a3, a4, a5⟩ := resolve_slot_settle env number (resolve_slot env number st 0)
        1 (by rw [g1]; exact hocc) (by rw [g1]; exact hsafe) (by rw [g2]; exact hdue)
      exact ⟨a1, by rw [a2, g4], by rw [a3, g6, g1], by rw [a4, g3], by rw [a5, g5]⟩
    · intro hsafe hdue
      rw [resolve_slot_hold env number (resolve_slot env number st 0) 1
        (by rw [g1]; exact hsafe) (by rw [g2]; exact hdue)]
      exact ⟨g1, g2, g3, g4, g5, g6⟩

/-- Concrete resolve environment for the C1 witness: the position at every
queried token id reports unsafe, so the liquidation branch fires. -/
def cResolveEnv : ResolveEnv :=
  ⟨fun _ => ⟨7, true, 11, 12, 13, false⟩, fun _ => ⟨true, 1, 2, 3, 4, 5, 6, 9⟩,
   fun _ => 100, fun _ => 90⟩

/-- Concrete runner state with both slots occupied, for the C1 witness. -/
def cStOcc : RunnerState :=
  { cSt with token_ids := fun _ => 5, blocks_settle := fun _ => 10 }

/-- Witness for C1 at a concrete input: an occupied, unsafe, overdue slot is
liquidated. -/
theorem C1_resolve_exactly_one_witness :
    cStOcc.token_ids 0 ≠ -1 ∧
    (cResolveEnv.manager_positions (cStOcc.token_ids 0)).safe = false ∧
    LiquidationApplied cResolveEnv cStOcc (resolve_positions cResolveEnv 12 cStOcc) 0 :=
  ⟨by decide, by decide,
    (C1_resolve_exactly_one cResolveEnv 12 cStOcc 0 (by decide)).1 (by decide)⟩

end MarginalSim
